import Mathlib

/-!
# Verification of the rodeo upload command

A shallow embedding of `commands/upload.go` from the `rodeo` image-upload
tool, together with proofs about its rule matcher, dedup ledger and
per-file upload orchestration.

External collaborators (the Flickr network calls, the exiftool process,
`GetImageInfo`) are parameterised as oracle inputs; the ledger file is
modelled as the optional textual content of the single list file the run
touches.  The JSON serialisation used for the ledger
(`encoding/json.MarshalIndent` / `json.Unmarshal` at `map[string]string`)
is modelled by a concrete encoder and parser for flat string-to-string
JSON objects, matching Go's output format (sorted keys, two-space indent,
lowercase `\u00xx` escapes, HTML-escaping of `<`, `>`, `&`).
-/

namespace Rodeo

/-! ## Keyword set algebra

`Intersection` and `Difference` live in the repository's `internal`
package, which is not part of the sources under verification. -/

/-- Modelled from the spec: the `Intersection` helper of the keyword set
algebra (repository `internal` package, not in the verified sources).
"The matched keyword set is the intersection (the subset actually
present)": the elements of the second list that are present in the
first. -/
def Intersection (a b : List String) : List String :=
  b.filter (fun x => a.contains x)

/-- Modelled from the spec: the `Difference` helper of the keyword set
algebra (repository `internal` package, not in the verified sources).
"Keywords to add = original keyword set minus the removal set": the
elements of the first list that are not present in the second. -/
def Difference (a b : List String) : List String :=
  a.filter (fun x => !b.contains x)

/-! ## Path helpers (model of Go `path/filepath` for slash paths) -/

/-- Model of Go `filepath.Base`: the last element of the path, after
stripping trailing slashes; `"."` for the empty path, `"/"` if the path
consists only of separators. -/
def filepathBase (path : String) : String :=
  if path = "" then "." else
  let cs := (path.data.reverse.dropWhile (fun c => c = '/')).reverse
  if cs = [] then "/" else
  String.mk ((cs.reverse.takeWhile (fun c => c ≠ '/')).reverse)

/-- Model of Go `filepath.Dir`: everything before the final separator of
the path (trailing separators removed); `"."` when there is none. -/
def filepathDir (path : String) : String :=
  let cs := (path.data.reverse.dropWhile (fun c => c ≠ '/')).reverse
  let cs := (cs.reverse.dropWhile (fun c => c = '/')).reverse
  if cs = [] then (if path.data.contains '/' then "/" else ".") else String.mk cs

/-- Model of Go `filepath.Ext`: the suffix of the final path element
starting at its last dot, empty if the final element has no dot. -/
def filepathExt (path : String) : String :=
  let seg := path.data.reverse.takeWhile (fun c => c ≠ '/')
  if seg.contains '.' then
    String.mk (((seg.takeWhile (fun c => c ≠ '.')) ++ ['.']).reverse)
  else ""

/-- Model of Go `strings.TrimSuffix`. -/
def trimSuffixStr (s suffix : String) : String :=
  if suffix.data ≠ [] ∧ s.data.reverse.take suffix.data.length = suffix.data.reverse
  then String.mk (s.data.take (s.data.length - suffix.data.length))
  else s

/-- Model of Go `strings.Trim(s, " ")`: remove leading and trailing
spaces. -/
def trimSpaces (s : String) : String :=
  String.mk (((s.data.dropWhile (fun c => c = ' ')).reverse.dropWhile
    (fun c => c = ' ')).reverse)

/-! ## The ledger mapping (model of Go `map[string]string`)

An association list with unique keys.  Go map assignment `m[k] = v` is
`ledgerInsert`, map indexing `m[k]` is `ledgerLookup`. -/

/-- The in-memory uploaded-files mapping: base filename to photo id. -/
abbrev Ledger := List (String × String)

/-- Go map lookup `m[k]`. -/
def ledgerLookup (m : Ledger) (k : String) : Option String :=
  (m.find? (fun p => p.1 = k)).map Prod.snd

/-- Go map assignment `m[k] = v`: overwrite in place if the key is
present, else append. -/
def ledgerInsert (m : Ledger) (k v : String) : Ledger :=
  if m.any (fun p => p.1 = k) then
    m.map (fun p => if p.1 = k then (k, v) else p)
  else m ++ [(k, v)]

/-- The keys of a ledger. -/
def ledgerKeys (m : Ledger) : List String := m.map Prod.fst

/-- Insert one entry into a key-sorted list (Go `encoding/json` emits
map keys in increasing string order). -/
def sortedInsertEntry (p : String × String) : Ledger → Ledger
  | [] => [p]
  | q :: rest =>
    if p.1 ≤ q.1 then p :: q :: rest else q :: sortedInsertEntry p rest

/-- Sort the entries of a ledger by key, as Go `encoding/json` does when
marshalling a map. -/
def sortEntries : Ledger → Ledger
  | [] => []
  | p :: rest => sortedInsertEntry p (sortEntries rest)

/-! ## JSON encoder (model of `json.MarshalIndent(m, "", "  ")`) -/

/-- Lowercase hexadecimal digit, as used by Go's JSON encoder. -/
def toHexDigit (n : Nat) : Char :=
  if n < 10 then Char.ofNat ('0'.toNat + n) else Char.ofNat ('a'.toNat + (n - 10))

/-- Escape one character the way Go's JSON encoder does (default
HTML-escaping on): `"` and `\` get a backslash, newline / carriage
return / tab use their short forms, other control characters and
`<`, `>`, `&` become `\u00xx`, U+2028 and U+2029 become `\u202x`. -/
def escapeChar (c : Char) : List Char :=
  if c = '"' then ['\\', '"']
  else if c = '\\' then ['\\', '\\']
  else if c = '\n' then ['\\', 'n']
  else if c = '\r' then ['\\', 'r']
  else if c = '\t' then ['\\', 't']
  else if c.toNat < 0x20 ∨ c = '<' ∨ c = '>' ∨ c = '&' then
    ['\\', 'u', '0', '0', toHexDigit (c.toNat / 16), toHexDigit (c.toNat % 16)]
  else if c.toNat = 0x2028 ∨ c.toNat = 0x2029 then
    ['\\', 'u', '2', '0', '2', toHexDigit (c.toNat % 16)]
  else [c]

/-- Escape a character list. -/
def escapeList (cs : List Char) : List Char := cs.flatMap escapeChar

/-- One `"key": "value"` member, in Go's two-space-indented format. -/
def encodeEntryChars (p : String × String) : List Char :=
  '"' :: escapeList p.1.data ++ '"' :: ':' :: ' ' :: '"' ::
    (escapeList p.2.data ++ ['"'])

/-- The members of the object, separated by `,\n  `. -/
def encodeMembersChars : Ledger → List Char
  | [] => []
  | [p] => encodeEntryChars p
  | p :: q :: rest =>
    encodeEntryChars p ++ ',' :: '\n' :: ' ' :: ' ' ::
      encodeMembersChars (q :: rest)

/-- Model of `json.MarshalIndent(m, "", "  ")` for a `map[string]string`:
keys sorted, `{}` for the empty map, otherwise one member per line with
two-space indentation. -/
def encodeLedgerChars (m : Ledger) : List Char :=
  match sortEntries m with
  | [] => ['{', '}']
  | p :: rest =>
    '{' :: '\n' :: ' ' :: ' ' ::
      (encodeMembersChars (p :: rest) ++ ['\n', '}'])

/-! ## JSON parser (model of `json.Unmarshal` at `map[string]string`)

The model follows Go's two-phase decoding.  `Unmarshal` first checks
that the whole input is one syntactically valid JSON value (`checkValid`);
on a syntax error the destination map is left untouched.  If the input is
valid, decoding into a `map[string]string` then proceeds member by
member: a JSON object stores every member, keeping string values and
storing the zero value `""` for a member whose value has another type
(recording a type error but continuing); a member value `null` is
decoded without error and also leaves the zero value; a top-level `null`
resets the map with no error; any other top-level value is a type error
that leaves the map untouched. -/

/-- Is this character JSON whitespace? -/
def isJsonWs (c : Char) : Bool :=
  c = ' ' ∨ c = '\n' ∨ c = '\t' ∨ c = '\r'

/-- Drop leading JSON whitespace. -/
def skipWs : List Char → List Char
  | [] => []
  | c :: cs => if isJsonWs c then skipWs cs else c :: cs

/-- Hexadecimal digit value, if any. -/
def fromHexDigit (c : Char) : Option Nat :=
  if '0' ≤ c ∧ c ≤ '9' then some (c.toNat - '0'.toNat)
  else if 'a' ≤ c ∧ c ≤ 'f' then some (c.toNat - 'a'.toNat + 10)
  else if 'A' ≤ c ∧ c ≤ 'F' then some (c.toNat - 'A'.toNat + 10)
  else none

/-- The single-character JSON escapes (`\"`, `\\`, `\/`, `\b`, `\f`,
`\n`, `\r`, `\t`). -/
def unescapeChar (e : Char) : Option Char :=
  if e = '"' then some '"'
  else if e = '\\' then some '\\'
  else if e = '/' then some '/'
  else if e = 'b' then some (Char.ofNat 0x8)
  else if e = 'f' then some (Char.ofNat 0xc)
  else if e = 'n' then some '\n'
  else if e = 'r' then some '\r'
  else if e = 't' then some '\t'
  else none

/-- Parse the body of a JSON string after the opening quote: returns the
unescaped characters and the input after the closing quote. -/
def parseStringBody : List Char → Option (List Char × List Char)
  | [] => none
  | c :: rest =>
    if c = '"' then some ([], rest)
    else if c = '\\' then
      match rest with
      | [] => none
      | e :: rest2 =>
        if e = 'u' then
          match rest2 with
          | h1 :: h2 :: h3 :: h4 :: rest3 =>
            match fromHexDigit h1, fromHexDigit h2, fromHexDigit h3,
                fromHexDigit h4 with
            | some d1, some d2, some d3, some d4 =>
              (parseStringBody rest3).map
                (fun r =>
                  (Char.ofNat (4096 * d1 + 256 * d2 + 16 * d3 + d4) :: r.1, r.2))
            | _, _, _, _ => none
          | _ => none
        else
          match unescapeChar e with
          | some u => (parseStringBody rest2).map (fun r => (u :: r.1, r.2))
          | none => none
    else (parseStringBody rest).map (fun r => (c :: r.1, r.2))

/-- A parsed JSON value.  Array elements are validated during parsing
but not retained: decoding into `map[string]string` never looks inside
an array. -/
inductive JsonValue
  | str (s : String)
  | num
  | boolean (b : Bool)
  | null
  | arr
  | obj (members : List (String × JsonValue))

/-- Consume the integer part of a JSON number (`0`, or a nonzero digit
followed by digits); leading zeros are invalid, as in Go's scanner. -/
def parseIntPart : List Char → Option (List Char)
  | c :: rest =>
    if c = '0' then some rest
    else if c.isDigit then some (rest.dropWhile (fun d => d.isDigit))
    else none
  | [] => none

/-- Consume an optional fraction part (`.` followed by digits). -/
def parseFracPart (cs : List Char) : Option (List Char) :=
  match cs with
  | '.' :: rest =>
    match rest with
    | d :: rest2 =>
      if d.isDigit then some (rest2.dropWhile (fun x => x.isDigit)) else none
    | [] => none
  | _ => some cs

/-- Consume an optional exponent part (`e`/`E`, optional sign, digits). -/
def parseExpPart (cs : List Char) : Option (List Char) :=
  match cs with
  | e :: rest =>
    if e = 'e' ∨ e = 'E' then
      match (match rest with
             | s :: r => if s = '+' ∨ s = '-' then r else rest
             | [] => rest) with
      | d :: r3 =>
        if d.isDigit then some (r3.dropWhile (fun x => x.isDigit)) else none
      | [] => none
    else some cs
  | [] => some cs

/-- Consume one JSON number (optional minus, integer part, optional
fraction and exponent). -/
def parseNumberChars (cs : List Char) : Option (List Char) :=
  match parseIntPart (match cs with
                      | '-' :: rest => rest
                      | _ => cs) with
  | some r1 =>
    match parseFracPart r1 with
    | some r2 => parseExpPart r2
    | none => none
  | none => none

mutual

/-- Parse one JSON value (leading whitespace allowed), returning the
value and the remaining input.  `fuel` bounds the recursion depth; every
recursive call consumes at least one input character per two units of
fuel, so `length + 1` fuel never runs out on a valid document. -/
def parseValue : Nat → List Char → Option (JsonValue × List Char)
  | 0, _ => none
  | fuel + 1, cs =>
    match skipWs cs with
    | [] => none
    | c :: rest =>
      if c = '"' then
        (parseStringBody rest).map
          (fun r => (JsonValue.str (String.mk r.1), r.2))
      else if c = '{' then
        match skipWs rest with
        | '}' :: r2 => some (JsonValue.obj [], r2)
        | _ =>
          (parseMembersList fuel rest).map
            (fun r => (JsonValue.obj r.1, r.2))
      else if c = '[' then
        match skipWs rest with
        | ']' :: r2 => some (JsonValue.arr, r2)
        | _ => (parseElems fuel rest).map (fun r => (JsonValue.arr, r))
      else if c = 't' then
        match rest with
        | 'r' :: 'u' :: 'e' :: r2 => some (JsonValue.boolean true, r2)
        | _ => none
      else if c = 'f' then
        match rest with
        | 'a' :: 'l' :: 's' :: 'e' :: r2 => some (JsonValue.boolean false, r2)
        | _ => none
      else if c = 'n' then
        match rest with
        | 'u' :: 'l' :: 'l' :: r2 => some (JsonValue.null, r2)
        | _ => none
      else
        (parseNumberChars (c :: rest)).map (fun r => (JsonValue.num, r))

/-- Parse the members of a non-empty JSON object (after the opening
brace), in document order, through the closing brace. -/
def parseMembersList :
    Nat → List Char → Option (List (String × JsonValue) × List Char)
  | 0, _ => none
  | fuel + 1, cs =>
    match skipWs cs with
    | '"' :: r1 =>
      match parseStringBody r1 with
      | some (key, r2) =>
        match skipWs r2 with
        | ':' :: r3 =>
          match parseValue fuel r3 with
          | some (v, r4) =>
            match skipWs r4 with
            | ',' :: r5 =>
              (parseMembersList fuel r5).map
                (fun r => ((String.mk key, v) :: r.1, r.2))
            | '}' :: r5 => some ([(String.mk key, v)], r5)
            | _ => none
          | none => none
        | _ => none
      | none => none
    | _ => none

/-- Parse the elements of a non-empty JSON array (after the opening
bracket) through the closing bracket. -/
def parseElems : Nat → List Char → Option (List Char)
  | 0, _ => none
  | fuel + 1, cs =>
    match parseValue fuel cs with
    | some (_, r1) =>
      match skipWs r1 with
      | ',' :: r2 => parseElems fuel r2
      | ']' :: r2 => some r2
      | _ => none
    | none => none

end

/-- Model of Go's `checkValid` pass: the content must be exactly one
valid JSON value with nothing but whitespace around it. -/
def parseJson (content : String) : Option JsonValue :=
  match parseValue (content.data.length + 1) content.data with
  | some (v, rest) => if skipWs rest = [] then some v else none
  | none => none

/-- Decoding of one member value at element type `string`: a JSON string
yields its value; every other value (including `null`) leaves the zero
value `""`, which Go then stores for the key anyway. -/
def decodeMemberValue : JsonValue → String
  | JsonValue.str s => s
  | _ => ""

/-- Does decoding this member value into a `string` record a type
error?  `null` decodes into a string silently (Go documents that a JSON
`null` into a non-pointer type has no effect and produces no error). -/
def memberTypeError : JsonValue → Bool
  | JsonValue.str _ => false
  | JsonValue.null => false
  | _ => true

/-- Decode a JSON object's members into a `map[string]string` the way
Go does: every member is stored in order (last duplicate wins), string
values kept and mistyped values stored as `""`; the error flag is set
when any member value had the wrong type. -/
def unmarshalObj (members : List (String × JsonValue)) : Ledger × Bool :=
  (members.foldl
    (fun acc kv => ledgerInsert acc kv.1 (decodeMemberValue kv.2)) [],
   members.any (fun kv => memberTypeError kv.2))

/-- Model of `json.Unmarshal(data, &m)` for `m : map[string]string`,
started from an empty map: the resulting map and whether an error is
returned.  A syntax error or a mistyped top-level value leaves the map
untouched; `null` resets it without error; an object is decoded member
by member per `unmarshalObj`. -/
def unmarshalLedger (content : String) : Ledger × Bool :=
  match parseJson content with
  | none => ([], true)
  | some JsonValue.null => ([], false)
  | some (JsonValue.obj members) => unmarshalObj members
  | some _ => ([], true)

/-! ## Ledger file operations (`upload.go` lines 320-401)

The run touches a single uploaded-list file; its state is modelled as
`Option String` — `none` when the file does not exist, `some content`
otherwise. -/

/-- The `uploadedListBaseFilename` constant (`upload.go` line 31). -/
def uploadedListBaseFilename : String := "rodeo-uploaded-files.json"

/-- Model of `getUploadedListFilename` (`upload.go` lines 320-331).  `configDir`
stands for the external `ConfigDir()` call. -/
def getUploadedListFilename (imageFilename : String)
    (storeUploadListInImageDirectory : Bool) (configDir : String) : String :=
  if storeUploadListInImageDirectory then
    filepathDir imageFilename ++ "/." ++ uploadedListBaseFilename
  else
    configDir ++ "/" ++ uploadedListBaseFilename

/-- Model of `readUploadedListFile` (`upload.go` lines 366-385): start from the
empty map; if the file exists, unmarshal its contents into it (whatever
`Unmarshal` left in the map is returned, also when an error was
reported). -/
def readUploadedListFile (file : Option String) : Ledger :=
  match file with
  | none => []
  | some data => (unmarshalLedger data).1

/-- Model of `writeUploadedListFile` (`upload.go` lines 388-401): marshal the map
with two-space indentation and write it, replacing the file. -/
def writeUploadedListFile (filenames : Ledger) : String :=
  String.mk (encodeLedgerChars filenames)

/-- Model of `getUploadedPhotoId` (`upload.go` lines 335-347): look the base
filename up in the uploaded list; empty string when absent. -/
def getUploadedPhotoId (filename : String) (file : Option String) : String :=
  let filenames := readUploadedListFile file
  let imageFilename := filepathBase filename
  match ledgerLookup filenames imageFilename with
  | some photoId => photoId
  | none => ""

/-- Model of `recordUpload` (`upload.go` lines 350-363): re-read the list file;
if the base filename is already recorded do nothing, otherwise add it
and rewrite the file.  Returns the new file state and whether a write
happened. -/
def recordUpload (filename photoId : String) (file : Option String) :
    Option String × Bool :=
  let imageFilename := filepathBase filename
  let filenames := readUploadedListFile file
  if (ledgerLookup filenames imageFilename).isSome then (file, false)
  else
    (some (writeUploadedListFile (ledgerInsert filenames imageFilename photoId)),
     true)

/-! ## Rules (`upload.go` lines 126-205 and the config data model) -/

/-- An album from the configuration: identifier and display name. -/
structure Album where
  id : String
  name : String
deriving DecidableEq, Repr

/-- A rule condition: four optional keyword lists. -/
structure Condition where
  excludesAll : List String := []
  excludesAny : List String := []
  includesAll : List String := []
  includesAny : List String := []
deriving DecidableEq, Repr

/-- A rule action: the delete-matched-keywords flag and target albums. -/
structure Action where
  delete : Bool := false
  albums : List Album := []
deriving DecidableEq, Repr

/-- A configured rule: condition plus action. -/
structure Rule where
  condition : Condition
  action : Action
deriving DecidableEq, Repr

/-- Condition evaluation for one rule (`upload.go` lines 132-182):
`none` when the rule is skipped or inapplicable, `some intersection`
when it applies, where `intersection` is the applicable keywords from
the condition. -/
def ruleMatch (keywords : List String) (c : Condition) : Option (List String) :=
  if c.excludesAll.length > 0 ∧
      (Intersection keywords c.excludesAll).length = c.excludesAll.length then
    none
  else if c.excludesAny.length > 0 ∧
      (Intersection keywords c.excludesAny).length > 0 then
    none
  else if c.includesAll.length > 0 then
    if (Intersection keywords c.includesAll).length ≠ c.includesAll.length then
      none
    else some (Intersection keywords c.includesAll)
  else if c.includesAny.length > 0 then
    if (Intersection keywords c.includesAny).length = 0 then none
    else some (Intersection keywords c.includesAny)
  else none

/-- The two accumulators of the rule loop. -/
structure RuleAccum where
  keywordsToRemove : List String := []
  albumsToAddTo : List Album := []
deriving DecidableEq, Repr

/-- One iteration of the rule loop (`upload.go` lines 131-196): a rule
that is skipped or inapplicable leaves the accumulators unchanged; an
applicable rule appends its matched keywords to the removal accumulator
when its delete flag is set, and appends its albums. -/
def ruleStep (keywords : List String) (acc : RuleAccum) (rule : Rule) : RuleAccum :=
  match ruleMatch keywords rule.condition with
  | none => acc
  | some intersection =>
    let acc1 :=
      if rule.action.delete then
        { acc with keywordsToRemove := acc.keywordsToRemove ++ intersection }
      else acc
    if rule.action.albums.length > 0 then
      { acc1 with albumsToAddTo := acc1.albumsToAddTo ++ rule.action.albums }
    else acc1

/-- The whole rule loop (`upload.go` lines 130-197). -/
def processRules (keywords : List String) (rules : List Rule) : RuleAccum :=
  rules.foldl (ruleStep keywords) {}

/-- Model of `upload.go` lines 199-205: the keywords sent with the upload. -/
def computeKeywordsToAdd (keywords keywordsToRemove : List String) : List String :=
  if keywordsToRemove.length > 0 then Difference keywords keywordsToRemove
  else keywords

/-! ## The per-file upload pipeline (`uploadFile`, `upload.go` lines 88-318) -/

/-- The configuration values `uploadFile` reads (via `GetConfig()` and
`ConfigDir()`). -/
structure Config where
  apiKey : String := ""
  apiSecret : String := ""
  oauthToken : String := ""
  oauthSecret : String := ""
  username : String := ""
  exiftool : String := ""
  rules : List Rule := []
  storeUploadListInImageDir : Bool := false
  setDatePosted : Bool := false
  configDir : String := ""
deriving Repr

/-- The metadata the external `GetImageInfo` call extracts from the
image: title, description, keywords and optional capture time (Unix
seconds). -/
structure ImageInfo where
  title : String := ""
  description : String := ""
  keywords : List String := []
  date : Option Int := none
deriving Repr

/-- Results of the external calls `uploadFile` makes: `none` models the
error return of `GetImageInfo` respectively `flickr.UploadFile`. -/
structure Oracle where
  imageInfo : Option ImageInfo := none
  uploadResult : Option String := none
deriving Repr

/-- Observable steps of one `uploadFile` run, in order. -/
inductive Event
  | printedAuthWarning
  | ledgerLookup (path : String)
  | metadataFetch (file : String)
  | printedActions (keywordsToRemove : List String) (albums : List Album)
  | exiftoolStrip (file : String) (keywords : List String)
  | remoteUpload (file : String) (title : String) (tags : List String)
  | ledgerWrite (content : String)
  | remoteSetDates (photoId : String) (datePosted : String)
  | remoteAddPhoto (albumId : String) (photoId : String)
deriving DecidableEq, Repr

/-- Does the event change local state or reach out to the remote
service?  `remoteUpload` counts: it is the outward call itself. -/
def Event.isMutation : Event → Bool
  | .exiftoolStrip _ _ => true
  | .remoteUpload _ _ _ => true
  | .ledgerWrite _ => true
  | .remoteSetDates _ _ => true
  | .remoteAddPhoto _ _ => true
  | _ => false

/-- Is the event a write of the uploaded-list file? -/
def Event.isLedgerWrite : Event → Bool
  | .ledgerWrite _ => true
  | _ => false

/-- How one `uploadFile` run ends: `exit code` models `os.Exit(code)`
(the whole process aborts), `ret photoId` models returning to the batch
loop. -/
inductive Outcome
  | exit (code : Nat)
  | ret (photoId : String)
deriving DecidableEq, Repr

/-- Result of one `uploadFile` run: how it ended, the uploaded-list file
afterwards, and the trace of observable steps. -/
structure RunResult where
  outcome : Outcome
  ledgerFile : Option String
  events : List Event
deriving DecidableEq, Repr

/-- Model of `uploadFile` (`upload.go` lines 88-318), with the external calls
supplied by `oracle` and the uploaded-list file by `ledgerFile`.

Line-by-line correspondence: missing credentials only print a warning
(lines 97-99, no abort); a missing exiftool path exits with status 2
(lines 102-106); the ledger short-circuit is lines 109-118; metadata
fetch lines 120-123; the rule loop lines 130-197; keyword finalisation
lines 199-205; the action printout lines 208-221; the dry-run return
lines 224-227; the local exiftool strip lines 229-244; title and tags
lines 253-266; the upload and its error return lines 282-286; the
ledger record line 288; date-posted lines 293-300; album assignment
lines 302-313. -/
def uploadFile (filename : String) (forceUpload dryRun : Bool)
    (config : Config) (oracle : Oracle) (ledgerFile : Option String) : RunResult :=
  let credsMissing := config.apiKey = "" ∨ config.apiSecret = "" ∨
    config.oauthToken = "" ∨ config.oauthSecret = ""
  let ev0 : List Event := if credsMissing then [.printedAuthWarning] else []
  if config.exiftool = "" then
    { outcome := .exit 2, ledgerFile := ledgerFile, events := ev0 }
  else
    let listPath :=
      getUploadedListFilename filename config.storeUploadListInImageDir
        config.configDir
    let uploadedPhotoId := getUploadedPhotoId filename ledgerFile
    let ev1 := ev0 ++ [.ledgerLookup listPath]
    if uploadedPhotoId ≠ "" ∧ ¬forceUpload then
      { outcome := .ret "", ledgerFile := ledgerFile, events := ev1 }
    else
      let ev2 := ev1 ++ [.metadataFetch filename]
      match oracle.imageInfo with
      | none => { outcome := .ret "", ledgerFile := ledgerFile, events := ev2 }
      | some info =>
        let acc := processRules info.keywords config.rules
        let keywordsToAdd :=
          computeKeywordsToAdd info.keywords acc.keywordsToRemove
        let ev3 := ev2 ++
          (if acc.keywordsToRemove.length > 0 ∨ acc.albumsToAddTo.length > 0
           then [.printedActions acc.keywordsToRemove acc.albumsToAddTo]
           else [])
        if dryRun then
          { outcome := .ret "", ledgerFile := ledgerFile, events := ev3 }
        else
          let ev4 := ev3 ++
            (if acc.keywordsToRemove.length > 0 ∧ config.exiftool ≠ ""
             then [.exiftoolStrip filename acc.keywordsToRemove]
             else [])
          let title0 := trimSpaces info.title
          let title :=
            if title0 = "" then
              trimSuffixStr (filepathBase filename) (filepathExt filename)
            else title0
          let tags := keywordsToAdd.map (fun kw => "\"" ++ kw ++ "\"")
          let ev5 := ev4 ++ [.remoteUpload filename title tags]
          match oracle.uploadResult with
          | none =>
            { outcome := .ret "", ledgerFile := ledgerFile, events := ev5 }
          | some photoId =>
            let rec0 := recordUpload filename photoId ledgerFile
            let ev6 := ev5 ++
              (match rec0 with
               | (some content, true) => [.ledgerWrite content]
               | _ => [])
            let ev7 := ev6 ++
              (match config.setDatePosted, info.date with
               | true, some d => [.remoteSetDates photoId (toString d)]
               | _, _ => [])
            let ev8 := ev7 ++
              acc.albumsToAddTo.map (fun a => Event.remoteAddPhoto a.id photoId)
            { outcome := .ret photoId, ledgerFile := rec0.1, events := ev8 }

/-! ## Lemmas about the keyword set algebra -/

theorem mem_Intersection {a b : List String} {x : String} :
    x ∈ Intersection a b ↔ x ∈ b ∧ x ∈ a := by
  simp [Intersection, List.mem_filter]

theorem Intersection_length_eq_iff {a b : List String} :
    (Intersection a b).length = b.length ↔ ∀ x ∈ b, x ∈ a := by
  constructor
  · intro h x hx
    have heq : Intersection a b = b :=
      (List.filter_sublist b).eq_of_length h
    have := List.filter_eq_self.mp heq x hx
    exact List.elem_iff.mp this
  · intro h
    have heq : Intersection a b = b := by
      apply List.filter_eq_self.mpr
      intro x hx
      exact List.elem_iff.mpr (h x hx)
    rw [heq]

theorem Intersection_eq_self {a b : List String} (h : ∀ x ∈ b, x ∈ a) :
    Intersection a b = b := by
  apply List.filter_eq_self.mpr
  intro x hx
  exact List.elem_iff.mpr (h x hx)

theorem Intersection_length_pos_iff {a b : List String} :
    0 < (Intersection a b).length ↔ ∃ x ∈ b, x ∈ a := by
  rw [List.length_pos_iff_exists_mem]
  constructor
  · rintro ⟨x, hx⟩
    exact ⟨x, (mem_Intersection.mp hx).1, (mem_Intersection.mp hx).2⟩
  · rintro ⟨x, hb, ha⟩
    exact ⟨x, mem_Intersection.mpr ⟨hb, ha⟩⟩

theorem mem_Difference {a b : List String} {x : String} :
    x ∈ Difference a b ↔ x ∈ a ∧ x ∉ b := by
  simp [Difference, List.mem_filter]

/-! ## Claim theorems: rule matcher -/

/-- C3.  A rule whose non-empty `excludesAll` is fully contained in the
image's keywords, or whose non-empty `excludesAny` meets the image's
keywords, is skipped: the loop iteration leaves both accumulators
unchanged. -/
theorem excludedRuleContributesNothing (keywords : List String) (r : Rule)
    (acc : RuleAccum)
    (h : (r.condition.excludesAll ≠ [] ∧ ∀ x ∈ r.condition.excludesAll, x ∈ keywords)
       ∨ (r.condition.excludesAny ≠ [] ∧ ∃ x ∈ r.condition.excludesAny, x ∈ keywords)) :
    ruleStep keywords acc r = acc := by
  have hmatch : ruleMatch keywords r.condition = none := by
    unfold ruleMatch
    rcases h with ⟨hne, hall⟩ | ⟨hne, hsome⟩
    · rw [if_pos]
      exact ⟨List.length_pos.mpr hne, Intersection_length_eq_iff.mpr hall⟩
    · by_cases hA : r.condition.excludesAll.length > 0 ∧
        (Intersection keywords r.condition.excludesAll).length =
          r.condition.excludesAll.length
      · rw [if_pos hA]
      · rw [if_neg hA, if_pos]
        exact ⟨List.length_pos.mpr hne, Intersection_length_pos_iff.mpr hsome⟩
  unfold ruleStep
  rw [hmatch]

/-- C3 witness. -/
theorem excludedRuleContributesNothingWitness :
    ruleStep ["a", "b"]
      { keywordsToRemove := [], albumsToAddTo := [] }
      ⟨{ excludesAll := ["a", "b"], includesAny := ["a"] },
       { delete := true, albums := [⟨"1", "X"⟩] }⟩ =
      { keywordsToRemove := [], albumsToAddTo := [] } :=
  excludedRuleContributesNothing ["a", "b"] _ _ (Or.inl ⟨by decide, by decide⟩)

/-- C2.  For a rule that survives the exclude checks: with non-empty
`includesAll` it applies exactly when every listed keyword is present
and matches `includesAll` itself; otherwise with non-empty `includesAny`
it applies exactly when some listed keyword is present and matches the
intersection (the keywords of `includesAny` actually present); with both
empty it never applies and the loop iteration changes nothing. -/
theorem includeRuleApplicability (keywords : List String) (r : Rule)
    (hA : ¬ (r.condition.excludesAll ≠ [] ∧
      ∀ x ∈ r.condition.excludesAll, x ∈ keywords))
    (hB : ¬ (r.condition.excludesAny ≠ [] ∧
      ∃ x ∈ r.condition.excludesAny, x ∈ keywords)) :
    (r.condition.includesAll ≠ [] →
      ruleMatch keywords r.condition =
        (if ∀ x ∈ r.condition.includesAll, x ∈ keywords
         then some r.condition.includesAll else none))
    ∧ (r.condition.includesAll = [] → r.condition.includesAny ≠ [] →
      ruleMatch keywords r.condition =
        (if ∃ x ∈ r.condition.includesAny, x ∈ keywords
         then some (Intersection keywords r.condition.includesAny) else none)
      ∧ ∀ x, x ∈ Intersection keywords r.condition.includesAny ↔
          x ∈ keywords ∧ x ∈ r.condition.includesAny)
    ∧ (r.condition.includesAll = [] → r.condition.includesAny = [] →
      ruleMatch keywords r.condition = none ∧
      ∀ acc, ruleStep keywords acc r = acc) := by
  have hA' : ¬ (r.condition.excludesAll.length > 0 ∧
      (Intersection keywords r.condition.excludesAll).length =
        r.condition.excludesAll.length) := by
    intro ⟨h1, h2⟩
    exact hA ⟨List.length_pos.mp h1, Intersection_length_eq_iff.mp h2⟩
  have hB' : ¬ (r.condition.excludesAny.length > 0 ∧
      (Intersection keywords r.condition.excludesAny).length > 0) := by
    intro ⟨h1, h2⟩
    exact hB ⟨List.length_pos.mp h1, Intersection_length_pos_iff.mp h2⟩
  refine ⟨?_, ?_, ?_⟩
  · intro hinc
    unfold ruleMatch
    rw [if_neg hA', if_neg hB', if_pos (List.length_pos.mpr hinc)]
    by_cases hall : ∀ x ∈ r.condition.includesAll, x ∈ keywords
    · rw [if_pos hall, if_neg, Intersection_eq_self hall]
      rw [Intersection_length_eq_iff.mpr hall]
      simp
    · rw [if_neg hall, if_pos]
      intro heq
      exact hall (Intersection_length_eq_iff.mp heq)
  · intro hincAll hincAny
    constructor
    · unfold ruleMatch
      rw [if_neg hA', if_neg hB', if_neg, if_pos (List.length_pos.mpr hincAny)]
      · by_cases hsome : ∃ x ∈ r.condition.includesAny, x ∈ keywords
        · rw [if_pos hsome, if_neg]
          exact Nat.pos_iff_ne_zero.mp (Intersection_length_pos_iff.mpr hsome)
        · rw [if_neg hsome, if_pos]
          by_contra hne
          exact hsome (Intersection_length_pos_iff.mp (Nat.pos_of_ne_zero hne))
      · simp [hincAll]
    · intro x
      exact mem_Intersection.trans (and_comm)
  · intro hincAll hincAny
    have hmatch : ruleMatch keywords r.condition = none := by
      unfold ruleMatch
      rw [if_neg hA', if_neg hB', if_neg, if_neg]
      · simp [hincAny]
      · simp [hincAll]
    refine ⟨hmatch, fun acc => ?_⟩
    unfold ruleStep
    rw [hmatch]

/-- C2 witness. -/
theorem includeRuleApplicabilityWitness :
    ruleMatch ["a", "b", "c"]
      { includesAll := ["a", "b"] } =
      (if ∀ x ∈ ["a", "b"], x ∈ ["a", "b", "c"]
       then some ["a", "b"] else none) :=
  (includeRuleApplicability ["a", "b", "c"]
    ⟨{ includesAll := ["a", "b"] }, { delete := true }⟩
    (by decide) (by decide)).1 (by decide)

/-- C4.  If any keywords were marked for removal, the uploaded keyword
set is the original minus the removal set; otherwise it is the original
keyword set unchanged. -/
theorem keywordsToAddSpec (keywords toRemove : List String) :
    (toRemove ≠ [] →
      ∀ k, k ∈ computeKeywordsToAdd keywords toRemove ↔
        k ∈ keywords ∧ k ∉ toRemove)
    ∧ (toRemove = [] → computeKeywordsToAdd keywords toRemove = keywords) := by
  constructor
  · intro hne k
    unfold computeKeywordsToAdd
    rw [if_pos (List.length_pos.mpr hne)]
    exact mem_Difference
  · intro he
    unfold computeKeywordsToAdd
    rw [if_neg]
    simp [he]

/-- C4 witness. -/
theorem keywordsToAddSpecWitness :
    ("c" ∈ computeKeywordsToAdd ["a", "b", "c"] ["a", "b"] ↔
      "c" ∈ ["a", "b", "c"] ∧ "c" ∉ ["a", "b"]) :=
  (keywordsToAddSpec ["a", "b", "c"] ["a", "b"]).1 (by decide) "c"

/-! ## Lemmas about the ledger mapping -/

theorem ledgerLookup_nil {k : String} : ledgerLookup [] k = none := rfl

theorem ledgerLookup_cons {p : String × String} {m : Ledger} {k : String} :
    ledgerLookup (p :: m) k =
      if p.1 = k then some p.2 else ledgerLookup m k := by
  by_cases h : p.1 = k
  · rw [if_pos h]
    unfold ledgerLookup
    rw [List.find?_cons_of_pos]
    · rfl
    · simpa using h
  · rw [if_neg h]
    unfold ledgerLookup
    rw [List.find?_cons_of_neg]
    simpa using h

theorem ledgerLookup_eq_none_iff {m : Ledger} {k : String} :
    ledgerLookup m k = none ↔ k ∉ ledgerKeys m := by
  induction m with
  | nil => simp [ledgerLookup_nil, ledgerKeys]
  | cons p m ih =>
    rw [ledgerLookup_cons]
    by_cases h : p.1 = k
    · simp [h, ledgerKeys]
    · simp only [if_neg h, ih, ledgerKeys, List.map_cons, List.mem_cons]
      constructor
      · intro hk hor
        rcases hor with hor | hor
        · exact h hor.symm
        · exact hk hor
      · intro hk hm
        exact hk (Or.inr hm)

theorem ledgerKeys_cons {p : String × String} {m : Ledger} :
    ledgerKeys (p :: m) = p.1 :: ledgerKeys m := rfl

theorem mem_ledgerKeys {m : Ledger} {k : String} :
    k ∈ ledgerKeys m ↔ ∃ v, (k, v) ∈ m := by
  simp only [ledgerKeys, List.mem_map]
  constructor
  · rintro ⟨⟨k', v⟩, hp, he⟩
    exact ⟨v, by rwa [← he]⟩
  · rintro ⟨v, hv⟩
    exact ⟨(k, v), hv, rfl⟩

theorem ledgerLookup_of_mem {m : Ledger} {k v : String}
    (hnd : (ledgerKeys m).Nodup) (hm : (k, v) ∈ m) :
    ledgerLookup m k = some v := by
  induction m with
  | nil => cases hm
  | cons p m ih =>
    rw [ledgerKeys_cons] at hnd
    have hnd1 := (List.nodup_cons.mp hnd).1
    have hnd2 := (List.nodup_cons.mp hnd).2
    rw [ledgerLookup_cons]
    rcases List.mem_cons.mp hm with he | hm'
    · rw [if_pos (by rw [← he]), ← he]
    · have h1 : p.1 ≠ k := by
        intro he1
        apply hnd1
        rw [he1]
        exact mem_ledgerKeys.mpr ⟨v, hm'⟩
      rw [if_neg h1]
      exact ih hnd2 hm'

theorem mem_of_ledgerLookup {m : Ledger} {k v : String}
    (h : ledgerLookup m k = some v) : (k, v) ∈ m := by
  unfold ledgerLookup at h
  rcases Option.map_eq_some'.mp h with ⟨a, hfind, hsnd⟩
  have h1 : a.1 = k := by simpa using List.find?_some hfind
  have h2 : a ∈ m := List.mem_of_find?_eq_some hfind
  have : a = (k, v) := by
    cases a
    simp only [Prod.mk.injEq]
    exact ⟨h1, hsnd⟩
  rw [← this]
  exact h2

theorem ledgerLookup_perm {m₁ m₂ : Ledger} (hp : m₁.Perm m₂)
    (hnd : (ledgerKeys m₁).Nodup) (k : String) :
    ledgerLookup m₁ k = ledgerLookup m₂ k := by
  have hkeys : (ledgerKeys m₁).Perm (ledgerKeys m₂) := hp.map Prod.fst
  cases h : ledgerLookup m₁ k with
  | none =>
    have : k ∉ ledgerKeys m₂ := fun hk =>
      (ledgerLookup_eq_none_iff.mp h) (hkeys.mem_iff.mpr hk)
    exact (ledgerLookup_eq_none_iff.mpr this).symm
  | some v =>
    have hnd₂ : (ledgerKeys m₂).Nodup := hkeys.nodup_iff.mp hnd
    exact (ledgerLookup_of_mem hnd₂ (hp.mem_iff.mp (mem_of_ledgerLookup h))).symm

theorem ledgerInsert_of_not_mem {m : Ledger} {k : String} (v : String)
    (h : k ∉ ledgerKeys m) : ledgerInsert m k v = m ++ [(k, v)] := by
  unfold ledgerInsert
  rw [if_neg]
  intro hany
  rcases List.any_eq_true.mp hany with ⟨p, hp, he⟩
  exact h (by
    simp only [ledgerKeys]
    exact List.mem_map.mpr ⟨p, hp, of_decide_eq_true he⟩)

theorem ledgerKeys_append {m₁ m₂ : Ledger} :
    ledgerKeys (m₁ ++ m₂) = ledgerKeys m₁ ++ ledgerKeys m₂ := by
  simp [ledgerKeys]

theorem ledgerKeys_ledgerInsert (m : Ledger) (k v : String) :
    ledgerKeys (ledgerInsert m k v) =
      if k ∈ ledgerKeys m then ledgerKeys m else ledgerKeys m ++ [k] := by
  by_cases h : k ∈ ledgerKeys m
  · rw [if_pos h]
    unfold ledgerInsert
    rw [if_pos]
    · simp only [ledgerKeys, List.map_map]
      apply List.map_congr_left
      intro p _
      by_cases hp : p.1 = k
      · simp [hp]
      · simp [hp]
    · rcases List.mem_map.mp h with ⟨p, hp, he⟩
      exact List.any_eq_true.mpr ⟨p, hp, decide_eq_true he⟩
  · rw [if_neg h, ledgerInsert_of_not_mem v h, ledgerKeys_append]
    rfl

theorem ledgerKeys_ledgerInsert_nodup {m : Ledger} (k v : String)
    (h : (ledgerKeys m).Nodup) : (ledgerKeys (ledgerInsert m k v)).Nodup := by
  rw [ledgerKeys_ledgerInsert]
  by_cases hk : k ∈ ledgerKeys m
  · rwa [if_pos hk]
  · rw [if_neg hk]
    simp [List.nodup_append, h, hk]

theorem ledgerLookup_append_singleton_self {m : Ledger} {k : String} (v : String)
    (h : k ∉ ledgerKeys m) : ledgerLookup (m ++ [(k, v)]) k = some v := by
  induction m with
  | nil => simp [ledgerLookup_cons]
  | cons p m ih =>
    rw [ledgerKeys_cons] at h
    rw [List.cons_append, ledgerLookup_cons, if_neg]
    · exact ih (fun hk => h (List.mem_cons.mpr (Or.inr hk)))
    · intro he
      exact h (List.mem_cons.mpr (Or.inl he.symm))

theorem ledgerLookup_append_singleton_other {m : Ledger} {k k' : String}
    (v : String) (h : k' ≠ k) :
    ledgerLookup (m ++ [(k, v)]) k' = ledgerLookup m k' := by
  induction m with
  | nil =>
    rw [List.nil_append, ledgerLookup_nil, ledgerLookup_cons, if_neg, ledgerLookup_nil]
    exact fun he => h he.symm
  | cons p m ih =>
    rw [List.cons_append, ledgerLookup_cons, ledgerLookup_cons]
    by_cases hp : p.1 = k'
    · rw [if_pos hp, if_pos hp]
    · rw [if_neg hp, if_neg hp, ih]

theorem sortedInsertEntry_perm (p : String × String) (l : Ledger) :
    (sortedInsertEntry p l).Perm (p :: l) := by
  induction l with
  | nil => exact List.Perm.refl _
  | cons q rest ih =>
    unfold sortedInsertEntry
    by_cases h : p.1 ≤ q.1
    · rw [if_pos h]
    · rw [if_neg h]
      exact (List.Perm.cons q ih).trans (List.Perm.swap p q rest)

theorem sortEntries_perm (m : Ledger) : (sortEntries m).Perm m := by
  induction m with
  | nil => exact List.Perm.refl _
  | cons p rest ih =>
    unfold sortEntries
    exact (sortedInsertEntry_perm p (sortEntries rest)).trans (List.Perm.cons p ih)

theorem foldl_ledgerInsert_append (entries : Ledger) : ∀ acc : Ledger,
    (∀ x ∈ ledgerKeys entries, x ∉ ledgerKeys acc) → (ledgerKeys entries).Nodup →
    entries.foldl (fun m p => ledgerInsert m p.1 p.2) acc = acc ++ entries := by
  induction entries with
  | nil => intro acc _ _; simp
  | cons p rest ih =>
    intro acc hdisj hnd
    rw [ledgerKeys_cons] at hnd
    have hnd1 := (List.nodup_cons.mp hnd).1
    have hnd2 := (List.nodup_cons.mp hnd).2
    have hp : p.1 ∉ ledgerKeys acc :=
      hdisj p.1 (by rw [ledgerKeys_cons]; exact List.mem_cons_self _ _)
    rw [List.foldl_cons, ledgerInsert_of_not_mem p.2 hp, ih]
    · simp
    · intro x hx
      rw [ledgerKeys_append]
      intro hmem
      rcases List.mem_append.mp hmem with hm | hm
      · exact hdisj x (by rw [ledgerKeys_cons]; exact List.mem_cons.mpr (Or.inr hx)) hm
      · have hx1 : x = p.1 := by
          rcases List.mem_map.mp hm with ⟨q, hq, he⟩
          rcases List.mem_singleton.mp hq with rfl
          exact he.symm
        rw [hx1] at hx
        exact hnd1 hx
    · exact hnd2

/-! ## Lemmas about the JSON codec -/

theorem skipWs_nil : skipWs [] = [] := rfl

theorem skipWs_cons (c : Char) (cs : List Char) :
    skipWs (c :: cs) = if isJsonWs c then skipWs cs else c :: cs := rfl

theorem skipWs_cons_of_ws {c : Char} {cs : List Char} (h : isJsonWs c = true) :
    skipWs (c :: cs) = skipWs cs := by
  rw [skipWs_cons, if_pos h]

theorem skipWs_cons_of_not_ws {c : Char} {cs : List Char} (h : ¬ isJsonWs c = true) :
    skipWs (c :: cs) = c :: cs := by
  rw [skipWs_cons, if_neg h]

theorem skipWs_append_of_ws {pre cs : List Char}
    (h : ∀ c ∈ pre, isJsonWs c = true) : skipWs (pre ++ cs) = skipWs cs := by
  induction pre with
  | nil => rfl
  | cons c p ih =>
    rw [List.cons_append, skipWs_cons_of_ws (h c (List.mem_cons_self _ _))]
    exact ih (fun x hx => h x (List.mem_cons.mpr (Or.inr hx)))

theorem fromHexDigit_toHexDigit : ∀ n : Nat, n < 16 →
    fromHexDigit (toHexDigit n) = some n := by decide

theorem parseStringBody_cons (c : Char) (rest : List Char) :
    parseStringBody (c :: rest) =
      if c = '"' then some ([], rest)
      else if c = '\\' then
        match rest with
        | [] => none
        | e :: rest2 =>
          if e = 'u' then
            match rest2 with
            | h1 :: h2 :: h3 :: h4 :: rest3 =>
              match fromHexDigit h1, fromHexDigit h2, fromHexDigit h3,
                  fromHexDigit h4 with
              | some d1, some d2, some d3, some d4 =>
                (parseStringBody rest3).map
                  (fun r =>
                    (Char.ofNat (4096 * d1 + 256 * d2 + 16 * d3 + d4) :: r.1,
                     r.2))
              | _, _, _, _ => none
            | _ => none
          else
            match unescapeChar e with
            | some u => (parseStringBody rest2).map (fun r => (u :: r.1, r.2))
            | none => none
      else (parseStringBody rest).map (fun r => (c :: r.1, r.2)) := by
  rw [parseStringBody.eq_def]

theorem parseStringBody_unicode {h1 h2 h3 h4 : Char} {d1 d2 d3 d4 : Nat}
    (e1 : fromHexDigit h1 = some d1) (e2 : fromHexDigit h2 = some d2)
    (e3 : fromHexDigit h3 = some d3) (e4 : fromHexDigit h4 = some d4)
    (tail : List Char) :
    parseStringBody ('\\' :: 'u' :: h1 :: h2 :: h3 :: h4 :: tail) =
      (parseStringBody tail).map
        (fun r =>
          (Char.ofNat (4096 * d1 + 256 * d2 + 16 * d3 + d4) :: r.1, r.2)) := by
  rw [parseStringBody_cons, if_neg (by decide), if_pos rfl]
  simp only [if_pos rfl, e1, e2, e3, e4, if_true]

theorem parseStringBody_simple_escape {e u : Char} (he : ¬ e = 'u')
    (hu : unescapeChar e = some u) (tail : List Char) :
    parseStringBody ('\\' :: e :: tail) =
      (parseStringBody tail).map (fun r => (u :: r.1, r.2)) := by
  rw [parseStringBody_cons, if_neg (by decide), if_pos rfl]
  simp only [if_neg he, hu]

theorem parseStringBody_escape (s : List Char) (rest : List Char) :
    parseStringBody (escapeList s ++ '"' :: rest) = some (s, rest) := by
  induction s with
  | nil =>
    rw [show escapeList [] ++ '"' :: rest = '"' :: rest by simp [escapeList],
      parseStringBody_cons, if_pos rfl]
  | cons c s ih =>
    have happ : escapeList (c :: s) ++ '"' :: rest =
        escapeChar c ++ (escapeList s ++ '"' :: rest) := by
      simp [escapeList]
    rw [happ]
    unfold escapeChar
    split_ifs with h1 h2 h3 h4 h5 h6 h7
    · subst h1
      rw [List.cons_append, List.cons_append, List.nil_append,
        parseStringBody_simple_escape (by decide)
          (show unescapeChar '"' = some '"' from rfl) _, ih]
      rfl
    · subst h2
      rw [List.cons_append, List.cons_append, List.nil_append,
        parseStringBody_simple_escape (by decide)
          (show unescapeChar '\\' = some '\\' from rfl) _, ih]
      rfl
    · subst h3
      rw [List.cons_append, List.cons_append, List.nil_append,
        parseStringBody_simple_escape (by decide)
          (show unescapeChar 'n' = some '\n' from rfl) _, ih]
      rfl
    · subst h4
      rw [List.cons_append, List.cons_append, List.nil_append,
        parseStringBody_simple_escape (by decide)
          (show unescapeChar 'r' = some '\r' from rfl) _, ih]
      rfl
    · subst h5
      rw [List.cons_append, List.cons_append, List.nil_append,
        parseStringBody_simple_escape (by decide)
          (show unescapeChar 't' = some '\t' from rfl) _, ih]
      rfl
    · -- the `\u00xx` escape for control characters and `<`, `>`, `&`
      have hlt : c.toNat < 256 := by
        rcases h6 with h | h | h | h
        · omega
        · subst h; decide
        · subst h; decide
        · subst h; decide
      have hdiv : c.toNat / 16 < 16 := by omega
      have hmod : c.toNat % 16 < 16 := by omega
      have h0 : fromHexDigit '0' = some 0 := rfl
      rw [List.cons_append, List.cons_append, List.cons_append,
        List.cons_append, List.cons_append, List.cons_append, List.nil_append,
        parseStringBody_unicode h0 h0 (fromHexDigit_toHexDigit _ hdiv)
          (fromHexDigit_toHexDigit _ hmod), ih]
      have hval : 4096 * 0 + 256 * 0 + 16 * (c.toNat / 16) + c.toNat % 16 =
          c.toNat := by omega
      simp only [hval, Char.ofNat_toNat]
      rfl
    · -- the `\u202x` escape for U+2028 and U+2029
      have hmod : c.toNat % 16 < 16 := Nat.mod_lt _ (by omega)
      have h0 : fromHexDigit '0' = some 0 := rfl
      have h2d : fromHexDigit '2' = some 2 := rfl
      rw [List.cons_append, List.cons_append, List.cons_append,
        List.cons_append, List.cons_append, List.cons_append, List.nil_append,
        parseStringBody_unicode h2d h0 h2d (fromHexDigit_toHexDigit _ hmod), ih]
      have hval : 4096 * 2 + 256 * 0 + 16 * 2 + c.toNat % 16 = c.toNat := by
        rcases h7 with h | h <;> rw [h]
      simp only [hval, Char.ofNat_toNat]
      rfl
    · -- literal character
      rw [List.singleton_append, parseStringBody_cons, if_neg h1, if_neg h2, ih]
      rfl

theorem String_mk_data (s : String) : String.mk s.data = s := rfl

theorem String_data_mk (cs : List Char) : (String.mk cs).data = cs := rfl

theorem encodeEntryChars_length_pos (p : String × String) :
    0 < (encodeEntryChars p).length := by
  simp [encodeEntryChars]

theorem encodeMembersChars_length (entries : Ledger) :
    entries.length ≤ (encodeMembersChars entries).length := by
  induction entries with
  | nil => simp [encodeMembersChars]
  | cons p tl ih =>
    cases tl with
    | nil => simpa [encodeMembersChars] using encodeEntryChars_length_pos p
    | cons q tl' =>
      have h1 := encodeEntryChars_length_pos p
      calc (p :: q :: tl').length = 1 + (q :: tl').length := by simp [Nat.add_comm]
        _ ≤ (encodeEntryChars p).length + (4 + (encodeMembersChars (q :: tl')).length) := by
            have := ih
            omega
        _ = (encodeMembersChars (p :: q :: tl')).length := by
            simp [encodeMembersChars]
            omega

theorem parseValue_string (f : Nat) (v : String) (rest : List Char) :
    parseValue (f + 1) (' ' :: '"' :: (escapeList v.data ++ '"' :: rest)) =
      some (JsonValue.str v, rest) := by
  rw [parseValue.eq_def]
  simp only [skipWs_cons_of_ws (show isJsonWs ' ' = true by decide),
    skipWs_cons_of_not_ws (show ¬ isJsonWs '"' = true by decide)]
  simp only [reduceIte, parseStringBody_escape, Option.map_some', String_mk_data]

theorem parseMembersList_encode (entries : Ledger) : ∀ (pre : List Char)
    (fuel : Nat) (rest : List Char),
    (∀ c ∈ pre, isJsonWs c = true) → entries ≠ [] →
    entries.length + 1 ≤ fuel →
    parseMembersList fuel
        (pre ++ (encodeMembersChars entries ++ '\n' :: '}' :: rest)) =
      some (entries.map (fun q => (q.1, JsonValue.str q.2)), rest) := by
  induction entries with
  | nil => intro _ _ _ _ hne _; exact absurd rfl hne
  | cons p tl ih =>
    intro pre fuel rest hpre _ hfuel
    cases fuel with
    | zero => simp at hfuel
    | succ f =>
      cases f with
      | zero => simp at hfuel
      | succ f0 =>
        cases tl with
        | nil =>
          have hinput : pre ++ (encodeMembersChars [p] ++ '\n' :: '}' :: rest) =
              pre ++ '"' :: (escapeList p.1.data ++ '"' ::
                (':' :: ' ' :: '"' ::
                  (escapeList p.2.data ++ '"' :: ('\n' :: '}' :: rest)))) := by
            simp [encodeMembersChars, encodeEntryChars]
          rw [hinput, parseMembersList.eq_def]
          simp only [skipWs_append_of_ws hpre,
            skipWs_cons_of_not_ws (show ¬ isJsonWs '"' = true by decide),
            parseStringBody_escape,
            skipWs_cons_of_not_ws (show ¬ isJsonWs ':' = true by decide),
            parseValue_string,
            skipWs_cons_of_ws (show isJsonWs '\n' = true by decide),
            skipWs_cons_of_not_ws (show ¬ isJsonWs '}' = true by decide),
            String_mk_data]
          rfl
        | cons q tl' =>
          have hinput : pre ++
              (encodeMembersChars (p :: q :: tl') ++ '\n' :: '}' :: rest) =
              pre ++ '"' :: (escapeList p.1.data ++ '"' ::
                (':' :: ' ' :: '"' ::
                  (escapeList p.2.data ++ '"' ::
                    (',' :: '\n' :: ' ' :: ' ' ::
                      (encodeMembersChars (q :: tl') ++
                        '\n' :: '}' :: rest))))) := by
            simp [encodeMembersChars, encodeEntryChars]
          have hrec : parseMembersList (f0 + 1)
              ('\n' :: ' ' :: ' ' ::
                (encodeMembersChars (q :: tl') ++ '\n' :: '}' :: rest)) =
              some ((q :: tl').map (fun x => (x.1, JsonValue.str x.2)), rest) :=
            ih ['\n', ' ', ' '] (f0 + 1) rest (by decide) (by simp)
              (by simp at hfuel ⊢; omega)
          rw [hinput, parseMembersList.eq_def]
          simp only [skipWs_append_of_ws hpre,
            skipWs_cons_of_not_ws (show ¬ isJsonWs '"' = true by decide),
            parseStringBody_escape,
            skipWs_cons_of_not_ws (show ¬ isJsonWs ':' = true by decide),
            parseValue_string,
            skipWs_cons_of_not_ws (show ¬ isJsonWs ',' = true by decide),
            hrec, Option.map_some', String_mk_data]
          rfl

theorem parseJson_encode (m : Ledger) :
    parseJson (writeUploadedListFile m) =
      some (JsonValue.obj
        ((sortEntries m).map (fun q => (q.1, JsonValue.str q.2)))) := by
  unfold parseJson writeUploadedListFile
  rw [String_data_mk]
  cases hs : sortEntries m with
  | nil =>
    rw [encodeLedgerChars, hs]
    rfl
  | cons p tl =>
    have henc : encodeLedgerChars m =
        '{' :: '\n' :: ' ' :: ' ' ::
          (encodeMembersChars (p :: tl) ++ ['\n', '}']) := by
      rw [encodeLedgerChars, hs]
    rw [henc]
    have hmem : ∃ ms, encodeMembersChars (p :: tl) = '"' :: ms := by
      cases tl with
      | nil => exact ⟨_, rfl⟩
      | cons q tl' => exact ⟨_, rfl⟩
    rcases hmem with ⟨ms, hms⟩
    have hskip : skipWs ('\n' :: ' ' :: ' ' ::
        (encodeMembersChars (p :: tl) ++ ['\n', '}'])) =
        '"' :: (ms ++ ['\n', '}']) := by
      rw [hms]
      simp only [skipWs_cons_of_ws (show isJsonWs '\n' = true by decide),
        skipWs_cons_of_ws (show isJsonWs ' ' = true by decide),
        List.cons_append,
        skipWs_cons_of_not_ws (show ¬ isJsonWs '"' = true by decide)]
    have hfuel : (p :: tl).length + 1 ≤
        ('{' :: '\n' :: ' ' :: ' ' ::
          (encodeMembersChars (p :: tl) ++ ['\n', '}'])).length := by
      have hml := encodeMembersChars_length (p :: tl)
      simp only [List.length_cons, List.length_append, List.length_nil] at hml ⊢
      omega
    have hparse := parseMembersList_encode (p :: tl) ['\n', ' ', ' ']
      (('{' :: '\n' :: ' ' :: ' ' ::
        (encodeMembersChars (p :: tl) ++ ['\n', '}'])).length) []
      (by decide) (by simp) hfuel
    have hparse2 : parseMembersList
        (('{' :: '\n' :: ' ' :: ' ' ::
          (encodeMembersChars (p :: tl) ++ ['\n', '}'])).length)
        ('\n' :: ' ' :: ' ' ::
          (encodeMembersChars (p :: tl) ++ ['\n', '}'])) =
        some ((p :: tl).map (fun q => (q.1, JsonValue.str q.2)), []) := hparse
    rw [parseValue.eq_def]
    simp only [skipWs_cons_of_not_ws (show ¬ isJsonWs '{' = true by decide),
      reduceIte]
    rw [hskip]
    rw [hparse2]
    simp only [Option.map_some']
    rfl

theorem unmarshalObj_str (entries : Ledger) :
    unmarshalObj (entries.map (fun q => (q.1, JsonValue.str q.2))) =
      (entries.foldl (fun acc q => ledgerInsert acc q.1 q.2) [], false) := by
  unfold unmarshalObj
  rw [Prod.mk.injEq]
  constructor
  · rw [List.foldl_map]
    rfl
  · induction entries with
    | nil => rfl
    | cons q tl ih => simpa [memberTypeError] using ih

theorem foldl_decode_keys_nodup (ms : List (String × JsonValue)) :
    ∀ acc : Ledger, (ledgerKeys acc).Nodup →
    (ledgerKeys (ms.foldl
      (fun acc kv => ledgerInsert acc kv.1 (decodeMemberValue kv.2)) acc)).Nodup := by
  induction ms with
  | nil => intro acc h; exact h
  | cons kv tl ih =>
    intro acc h
    exact ih _ (ledgerKeys_ledgerInsert_nodup _ _ h)

theorem readUploadedListFile_some (data : String) :
    readUploadedListFile (some data) = (unmarshalLedger data).1 := rfl

theorem readUploadedListFile_nodup (file : Option String) :
    (ledgerKeys (readUploadedListFile file)).Nodup := by
  cases file with
  | none => simp [readUploadedListFile, ledgerKeys]
  | some data =>
    rw [readUploadedListFile_some]
    unfold unmarshalLedger
    split
    · simp [ledgerKeys]
    · simp [ledgerKeys]
    · exact foldl_decode_keys_nodup _ [] (by simp [ledgerKeys])
    · simp [ledgerKeys]

theorem readUploadedListFile_write (m : Ledger)
    (hnd : (ledgerKeys m).Nodup) :
    readUploadedListFile (some (writeUploadedListFile m)) = sortEntries m := by
  rw [readUploadedListFile_some]
  unfold unmarshalLedger
  rw [parseJson_encode m]
  simp only []
  rw [unmarshalObj_str (sortEntries m)]
  have hnds : (ledgerKeys (sortEntries m)).Nodup :=
    ((sortEntries_perm m).map Prod.fst).nodup_iff.mpr hnd
  rw [foldl_ledgerInsert_append (sortEntries m) [] (by simp [ledgerKeys]) hnds]
  rw [List.nil_append]

/-! ## Claim theorems: dedup ledger -/

/-- C7.  Writing any uniquely-keyed mapping to the ledger file and
reading it back yields the same mapping: lookup of every key agrees
(the JSON round-trip is order-insensitive, the file stores the entries
sorted by key). -/
theorem ledgerRoundtrip (m : Ledger) (hnd : (ledgerKeys m).Nodup)
    (k : String) :
    ledgerLookup (readUploadedListFile (some (writeUploadedListFile m))) k =
      ledgerLookup m k := by
  rw [readUploadedListFile_write m hnd]
  exact ledgerLookup_perm (sortEntries_perm m)
    (((sortEntries_perm m).map Prod.fst).nodup_iff.mpr hnd) k

/-- C7 witness. -/
theorem ledgerRoundtripWitness :
    ledgerLookup
      (readUploadedListFile
        (some (writeUploadedListFile [("IMG_1.jpg", "123"), ("a.jpg", "9")])))
      "IMG_1.jpg" =
      ledgerLookup [("IMG_1.jpg", "123"), ("a.jpg", "9")] "IMG_1.jpg" :=
  ledgerRoundtrip [("IMG_1.jpg", "123"), ("a.jpg", "9")] (by decide) "IMG_1.jpg"

theorem recordUpload_present (filename photoId : String) (file : Option String)
    (h : (ledgerLookup (readUploadedListFile file)
      (filepathBase filename)).isSome = true) :
    recordUpload filename photoId file = (file, false) := by
  unfold recordUpload
  simp only [if_pos h]

theorem recordUpload_absent (filename photoId : String) (file : Option String)
    (h : ledgerLookup (readUploadedListFile file) (filepathBase filename) = none) :
    recordUpload filename photoId file =
      (some (writeUploadedListFile
        (ledgerInsert (readUploadedListFile file)
          (filepathBase filename) photoId)), true) := by
  unfold recordUpload
  simp only [h, Option.isSome_none]
  rfl

/-- C6.  When a base filename is not yet in the ledger, recording it
stores its photo id, and recording the same base filename again with a
different id is a no-op: the file is left exactly as the first write
left it (no write happens), and the first id stays recorded. -/
theorem recordFirstWriteWins (file : Option String) (fn id1 id2 : String)
    (h : ledgerLookup (readUploadedListFile file) (filepathBase fn) = none) :
    recordUpload fn id2 (recordUpload fn id1 file).1 =
      ((recordUpload fn id1 file).1, false) ∧
    ledgerLookup (readUploadedListFile (recordUpload fn id1 file).1)
      (filepathBase fn) = some id1 := by
  have hnd : (ledgerKeys (readUploadedListFile file)).Nodup :=
    readUploadedListFile_nodup file
  have hnotmem : filepathBase fn ∉ ledgerKeys (readUploadedListFile file) :=
    ledgerLookup_eq_none_iff.mp h
  have hr1 := recordUpload_absent fn id1 file h
  have hins : ledgerInsert (readUploadedListFile file) (filepathBase fn) id1 =
      readUploadedListFile file ++ [(filepathBase fn, id1)] :=
    ledgerInsert_of_not_mem id1 hnotmem
  have hndins : (ledgerKeys (ledgerInsert (readUploadedListFile file)
      (filepathBase fn) id1)).Nodup :=
    ledgerKeys_ledgerInsert_nodup _ _ hnd
  have hread : readUploadedListFile (some (writeUploadedListFile
      (ledgerInsert (readUploadedListFile file) (filepathBase fn) id1))) =
      sortEntries (ledgerInsert (readUploadedListFile file)
        (filepathBase fn) id1) :=
    readUploadedListFile_write _ hndins
  have hlook : ledgerLookup (sortEntries (ledgerInsert
      (readUploadedListFile file) (filepathBase fn) id1))
      (filepathBase fn) = some id1 := by
    rw [ledgerLookup_perm (sortEntries_perm _)
      (((sortEntries_perm _).map Prod.fst).nodup_iff.mpr hndins) _]
    rw [hins, ledgerLookup_append_singleton_self id1 hnotmem]
  constructor
  · rw [hr1]
    apply recordUpload_present
    rw [hread, hlook]
    rfl
  · rw [hr1, hread, hlook]

/-- C6 witness. -/
theorem recordFirstWriteWinsWitness :
    recordUpload "IMG_1.jpg" "222" (recordUpload "IMG_1.jpg" "111" none).1 =
      ((recordUpload "IMG_1.jpg" "111" none).1, false) ∧
    ledgerLookup (readUploadedListFile (recordUpload "IMG_1.jpg" "111" none).1)
      (filepathBase "IMG_1.jpg") = some "111" :=
  recordFirstWriteWins none "IMG_1.jpg" "111" "222" rfl

/-- C10.  Recording a base filename preserves every other ledger entry:
the lookup of any different key after the record (re-reading the
rewritten file) equals its lookup before. -/
theorem recordPreservesOtherEntries (file : Option String) (fn id k : String)
    (h : k ≠ filepathBase fn) :
    ledgerLookup (readUploadedListFile (recordUpload fn id file).1) k =
      ledgerLookup (readUploadedListFile file) k := by
  cases hl : ledgerLookup (readUploadedListFile file) (filepathBase fn) with
  | some v =>
    rw [recordUpload_present fn id file (by rw [hl]; rfl)]
  | none =>
    have hnd : (ledgerKeys (readUploadedListFile file)).Nodup :=
      readUploadedListFile_nodup file
    have hnotmem : filepathBase fn ∉ ledgerKeys (readUploadedListFile file) :=
      ledgerLookup_eq_none_iff.mp hl
    have hndins : (ledgerKeys (ledgerInsert (readUploadedListFile file)
        (filepathBase fn) id)).Nodup :=
      ledgerKeys_ledgerInsert_nodup _ _ hnd
    rw [recordUpload_absent fn id file hl]
    rw [readUploadedListFile_write _ hndins]
    rw [ledgerLookup_perm (sortEntries_perm _)
      (((sortEntries_perm _).map Prod.fst).nodup_iff.mpr hndins) k]
    rw [ledgerInsert_of_not_mem id hnotmem,
      ledgerLookup_append_singleton_other id h]

/-- C10 witness. -/
theorem recordPreservesOtherEntriesWitness :
    ledgerLookup
      (readUploadedListFile
        (recordUpload "IMG_2.jpg" "222"
          (some (writeUploadedListFile [("IMG_1.jpg", "111")]))).1)
      "IMG_1.jpg" =
      ledgerLookup
        (readUploadedListFile
          (some (writeUploadedListFile [("IMG_1.jpg", "111")])))
        "IMG_1.jpg" :=
  recordPreservesOtherEntries
    (some (writeUploadedListFile [("IMG_1.jpg", "111")]))
    "IMG_2.jpg" "222" "IMG_1.jpg" (by decide)

/-- C5.  When the remote upload fails, the run for this file returns the
empty photo identifier, the uploaded-list file is unchanged, and no
ledger write happens anywhere in the trace. -/
theorem uploadErrorLeavesLedgerUnchanged
    (filename : String) (force : Bool) (config : Config) (oracle : Oracle)
    (file : Option String) (info : ImageInfo)
    (hex : ¬ config.exiftool = "")
    (hskip : ¬ (getUploadedPhotoId filename file ≠ "" ∧ ¬ force = true))
    (hinfo : oracle.imageInfo = some info)
    (hup : oracle.uploadResult = none) :
    (uploadFile filename force false config oracle file).outcome = .ret "" ∧
    (uploadFile filename force false config oracle file).ledgerFile = file ∧
    (uploadFile filename force false config oracle file).events.all
      (fun e => ! e.isLedgerWrite) = true := by
  unfold uploadFile
  simp only [if_neg hex, if_neg hskip, hinfo, hup, if_neg Bool.false_ne_true]
  refine ⟨by trivial, by trivial, ?_⟩
  split_ifs <;> rfl

/-- C5 witness. -/
theorem uploadErrorLeavesLedgerUnchangedWitness :
    (uploadFile "IMG_1.jpg" false false
      { apiKey := "k", apiSecret := "s", oauthToken := "t",
        oauthSecret := "o", exiftool := "exiftool" }
      { imageInfo := some { }, uploadResult := none }
      none).outcome = .ret "" ∧
    (uploadFile "IMG_1.jpg" false false
      { apiKey := "k", apiSecret := "s", oauthToken := "t",
        oauthSecret := "o", exiftool := "exiftool" }
      { imageInfo := some { }, uploadResult := none }
      none).ledgerFile = none ∧
    (uploadFile "IMG_1.jpg" false false
      { apiKey := "k", apiSecret := "s", oauthToken := "t",
        oauthSecret := "o", exiftool := "exiftool" }
      { imageInfo := some { }, uploadResult := none }
      none).events.all (fun e => ! e.isLedgerWrite) = true :=
  uploadErrorLeavesLedgerUnchanged "IMG_1.jpg" false _ _ none
    { } (by decide) (by decide) rfl rfl

/-- C9.  With dry-run enabled (and the pipeline reaching the dry-run
check), the run stops after printing the computed actions and before any
mutation: the empty identifier is returned, the uploaded-list file is
unchanged, every event of the trace is non-mutating (no exiftool strip,
no remote call, no ledger write), and the computed actions were printed
whenever there were any. -/
theorem dryRunStopsBeforeMutation
    (filename : String) (force : Bool) (config : Config) (oracle : Oracle)
    (file : Option String) (info : ImageInfo)
    (hex : ¬ config.exiftool = "")
    (hskip : ¬ (getUploadedPhotoId filename file ≠ "" ∧ ¬ force = true))
    (hinfo : oracle.imageInfo = some info) :
    (uploadFile filename force true config oracle file).outcome = .ret "" ∧
    (uploadFile filename force true config oracle file).ledgerFile = file ∧
    (uploadFile filename force true config oracle file).events.all
      (fun e => ! e.isMutation) = true ∧
    ((processRules info.keywords config.rules).keywordsToRemove.length > 0 ∨
      (processRules info.keywords config.rules).albumsToAddTo.length > 0 →
      Event.printedActions
          (processRules info.keywords config.rules).keywordsToRemove
          (processRules info.keywords config.rules).albumsToAddTo ∈
        (uploadFile filename force true config oracle file).events) := by
  unfold uploadFile
  simp only [if_neg hex, if_neg hskip, hinfo, if_pos rfl]
  refine ⟨by trivial, by trivial, ?_, ?_⟩
  · split_ifs <;> rfl
  · intro h
    rw [if_pos h]
    simp

/-- C9 witness. -/
theorem dryRunStopsBeforeMutationWitness :
    (uploadFile "IMG_1.jpg" false true
      { apiKey := "k", apiSecret := "s", oauthToken := "t",
        oauthSecret := "o", exiftool := "exiftool",
        rules := [⟨{ includesAny := ["private"] }, { delete := true }⟩] }
      { imageInfo := some { keywords := ["private", "family"] },
        uploadResult := none }
      none).events.all (fun e => ! e.isMutation) = true ∧
    Event.printedActions ["private"] [] ∈
      (uploadFile "IMG_1.jpg" false true
        { apiKey := "k", apiSecret := "s", oauthToken := "t",
          oauthSecret := "o", exiftool := "exiftool",
          rules := [⟨{ includesAny := ["private"] }, { delete := true }⟩] }
        { imageInfo := some { keywords := ["private", "family"] },
          uploadResult := none }
        none).events :=
  ⟨(dryRunStopsBeforeMutation "IMG_1.jpg" false _ _ none
      { keywords := ["private", "family"] }
      (by decide) (by decide) rfl).2.2.1,
   (dryRunStopsBeforeMutation "IMG_1.jpg" false _ _ none
      { keywords := ["private", "family"] }
      (by decide) (by decide) rfl).2.2.2 (by decide)⟩

/-- C1 (code bug).  With the exiftool path configured but the Flickr api
key missing, `uploadFile` prints the "Unable to continue" warning and
then carries on anyway — the ledger is consulted, the metadata is
fetched, the file is uploaded and recorded — instead of fatally aborting
before any per-file work as the spec (and the warning itself) say; only
the missing-exiftool branch calls `os.Exit(2)`. -/
theorem missingCredentialsDoNotAbort :
    uploadFile "IMG_1.jpg" false false
      { apiSecret := "s", oauthToken := "t",
        oauthSecret := "o", exiftool := "exiftool" }
      { imageInfo := some { }, uploadResult := some "42" }
      none =
    { outcome := .ret "42",
      ledgerFile := some (writeUploadedListFile [("IMG_1.jpg", "42")]),
      events := [.printedAuthWarning,
        .ledgerLookup "/rodeo-uploaded-files.json",
        .metadataFetch "IMG_1.jpg",
        .remoteUpload "IMG_1.jpg" "IMG_1" [],
        .ledgerWrite (writeUploadedListFile [("IMG_1.jpg", "42")])] } ∧
    uploadFile "IMG_1.jpg" false false
      { apiKey := "k", apiSecret := "s", oauthToken := "t",
        oauthSecret := "o", exiftool := "" }
      { imageInfo := some { }, uploadResult := some "42" }
      none =
    { outcome := .exit 2, ledgerFile := none, events := [] } := by
  decide

end Rodeo
